import Mathlib

/-!
Verification of `reference_image_selector.py` against its specification.

The Python source is shallowly embedded: the filesystem state touched by
the program is modelled explicitly, fallible filesystem operations are
driven by a fault oracle (so that "any exception" can be quantified over),
and the Streamlit session state is modelled as a record.  All definitions
are executable so that concrete runs can be checked by `decide`.
-/

/-! ## String utilities -/

/-- ASCII lowercasing of a string, modelling Python `str.lower()` on the
ASCII file names this tool handles. -/
def strLower (s : String) : String := ⟨s.data.map Char.toLower⟩

/-- Lexicographic comparison of character lists by code point, modelling
how Python compares the `str` sort keys. -/
def lexLe : List Char → List Char → Bool
  | [], _ => true
  | _ :: _, [] => false
  | a :: as, b :: bs =>
    if a.toNat < b.toNat then true
    else if b.toNat < a.toNat then false
    else lexLe as bs

/-- Index of the last `'.'` in a list of characters, if any. -/
def lastDotIdx : List Char → Option Nat
  | [] => none
  | c :: rest =>
    match lastDotIdx rest with
    | some i => some (i + 1)
    | none => if c = '.' then some 0 else none

/-- Python `pathlib.PurePath(name).suffix` for a plain file name: the part
of the name from its last dot on, unless that dot is the first or the last
character, in which case the suffix is empty. -/
def fileSuffix (name : String) : String :=
  match lastDotIdx name.data with
  | none => ""
  | some i => if 0 < i ∧ i < name.data.length - 1 then ⟨name.data.drop i⟩ else ""

/-! ## Configuration (module constants of the Python file) -/

/-- Supported image extensions (`SUPPORTED_EXTENSIONS`). -/
def SUPPORTED_EXTENSIONS : List String :=
  [".jpg", ".jpeg", ".png", ".webp", ".gif", ".bmp", ".tiff"]

/-! ## Catalog scanner -/

/-- A directory entry as produced by `Path.iterdir`, with the results of
its `is_dir()` / `is_file()` checks. -/
structure Entry where
  name : String
  isDir : Bool
  isFile : Bool
deriving DecidableEq

/-- The source root directory (`SOURCE_FOLDER`): whether it exists, and
its directory entries. -/
structure SourceRoot where
  present : Bool
  entries : List Entry
deriving DecidableEq

/-- A product folder: whether it exists, and its directory entries. -/
structure Folder where
  present : Bool
  entries : List Entry
deriving DecidableEq

/-- Sort relation used by the Python code: compare lowercased names
(`key=lambda x: x.name.lower()`). -/
def byLowerName (a b : Entry) : Prop :=
  lexLe (strLower a.name).data (strLower b.name).data = true

instance : DecidableRel byLowerName := fun _ _ =>
  inferInstanceAs (Decidable (_ = true))

/-- Function `get_all_product_folders`: the directories directly under the
source root, sorted by lowercased name.  Python's `list.sort` is a stable
sort, modelled by insertion sort. -/
def get_all_product_folders (src : SourceRoot) : List Entry :=
  if src.present then
    List.insertionSort byLowerName (src.entries.filter (fun f => f.isDir))
  else []

/-- Function `get_images_in_folder`: the files of the folder whose
lowercased extension is in the supported set, sorted by lowercased name. -/
def get_images_in_folder (folder : Folder) : List Entry :=
  if folder.present then
    List.insertionSort byLowerName
      (folder.entries.filter
        (fun item => item.isFile &&
          decide (strLower (fileSuffix item.name) ∈ SUPPORTED_EXTENSIONS)))
  else []

/-! ## Ordered association lists (Python `dict` with string keys) -/

/-- Dictionary lookup. -/
def assocGet {β : Type} (l : List (String × β)) (k : String) : Option β :=
  match l with
  | [] => none
  | (n, v) :: rest => if n = k then some v else assocGet rest k

/-- Dictionary assignment: update in place when the key exists (keeping
insertion order), otherwise append at the end — exactly the insertion-order
semantics of a Python `dict`. -/
def assocSet {β : Type} (l : List (String × β)) (k : String) (v : β) :
    List (String × β) :=
  match l with
  | [] => [(k, v)]
  | (n, w) :: rest => if n = k then (n, v) :: rest else (n, w) :: assocSet rest k v

/-! ## Review session state -/

/-- Per-image working state, the dict `{"selected": bool, "color": str}`. -/
structure SelEntry where
  selected : Bool
  color : String
deriving DecidableEq

/-- The Streamlit session state used by the navigation and selection
logic of `main`. -/
structure Session where
  current_index : Int
  username : String
  current_selections : List (String × SelEntry)
  last_loaded_product : Option String
deriving DecidableEq

/-- Function `reset_selections_for_product`: when a different product is
loaded, re-initialize one unselected entry per image, in listing order. -/
def reset_selections_for_product (product_name : String) (images : List String)
    (s : Session) : Session :=
  if s.last_loaded_product ≠ some product_name then
    { s with
      current_selections := images.map (fun img => (img, ⟨false, "unknown"⟩)),
      last_loaded_product := some product_name }
  else s

/-- Function `go_to_previous`. -/
def go_to_previous (s : Session) : Session :=
  { s with current_index := max 0 (s.current_index - 1), last_loaded_product := none }

/-- Function `go_to_next`; `total` is `len(st.session_state.product_folders)`. -/
def go_to_next (total : Nat) (s : Session) : Session :=
  { s with current_index := min ((total : Int) - 1) (s.current_index + 1),
           last_loaded_product := none }

/-- The jump-to-product control in `main`: `st.number_input` clamps the
entered value into `[1, total]`, and when the clamped value differs from
the current 1-based position the 0-based index is set to it minus one. -/
def jump_to (total : Nat) (target : Int) (s : Session) : Session :=
  let j := max 1 (min (total : Int) target)
  if j ≠ s.current_index + 1 then
    { s with current_index := j - 1, last_loaded_product := none }
  else s

/-- One image tile of the grid in `main`: ensure a selection entry exists,
store the checkbox state, and store the chosen color only under
`if is_selected:` (the color widget is disabled otherwise). -/
def grid_step (image_name : String) (is_selected : Bool) (chosen_color : String)
    (sels : List (String × SelEntry)) : List (String × SelEntry) :=
  let sels1 :=
    match assocGet sels image_name with
    | none => assocSet sels image_name ⟨false, "unknown"⟩
    | some _ => sels
  let e := (assocGet sels1 image_name).getD ⟨false, "unknown"⟩
  if is_selected then
    assocSet sels1 image_name ⟨is_selected, chosen_color⟩
  else
    assocSet sels1 image_name ⟨is_selected, e.color⟩

/-- One reviewer interaction with an image tile: the checkbox state and the
color choice the widgets report for that image on this rerun. -/
structure GridOp where
  image : String
  isSel : Bool
  color : String
deriving DecidableEq

/-- Apply a sequence of grid interactions to the selection dict. -/
def apply_grid (ops : List GridOp) (sels : List (String × SelEntry)) :
    List (String × SelEntry) :=
  ops.foldl (fun s op => grid_step op.image op.isSel op.color s) sels

/-- A selection handed to `save_selection`: a dict with an
`original_file` key and an optional `color` key. -/
structure Sel where
  original_file : String
  color : Option String
deriving DecidableEq

/-- The collection loop in `main`: walk `current_selections` in dict
iteration order (insertion order) and keep the selected entries. -/
def collect_selected (sels : List (String × SelEntry)) : List Sel :=
  sels.filterMap (fun p => if p.2.selected then some ⟨p.1, some p.2.color⟩ else none)

/-! ## Selection store -/

/-- Expression `img_info.get("color", "unknown") or "unknown"`: an absent
or empty color falls back to `"unknown"`. -/
def colorD (s : Sel) : String :=
  match s.color with
  | none => "unknown"
  | some c => if c = "" then "unknown" else c

/-- Expression `f"ref_{idx}_{color}{ext}"`. -/
def refName (idx : Nat) (color : String) (ext : String) : String :=
  "ref_" ++ toString idx ++ "_" ++ color ++ ext

/-- One element of the `images` list of the persisted record. -/
structure ImageMeta where
  original_file : String
  saved_file : String
  color : String
deriving DecidableEq

/-- The persisted `selection.json` record (`selection_data`). -/
structure SelectionRecord where
  product_name : String
  completed : Bool
  selected_by : String
  timestamp : String
  images : List ImageMeta
deriving DecidableEq

/-- Contents of a file in the product's output directory: copied image
bytes, or the serialized selection record. -/
inductive FileContent where
  | bytes (b : String)
  | record (r : SelectionRecord)
deriving DecidableEq

/-- State of the product's output directory `OUTPUT_FOLDER / product_name`:
whether the directory exists and its files (name ↦ content). -/
structure FS where
  dirExists : Bool
  files : List (String × FileContent)
deriving DecidableEq

/-- Fault oracle: which of the fallible filesystem operations performed by
`save_selection` raise an exception (`copyFails` is indexed by the 1-based
position of the copy). -/
structure Oracle where
  mkdirFails : Bool
  copyFails : Nat → Bool
  writeFails : Bool
  renameFails : Bool

/-- The oracle of a run in which no filesystem operation fails. -/
def noFault : Oracle := ⟨false, fun _ => false, false, false⟩

/-- Removal of a file from a directory listing. -/
def removeFile (l : List (String × FileContent)) (k : String) :
    List (String × FileContent) :=
  match l with
  | [] => []
  | (n, v) :: rest =>
    if n = k then removeFile rest k else (n, v) :: removeFile rest k

/-- The copy loop of `save_selection`
(`for idx, img_info in enumerate(selected_images, start=1)`): copy each
source file to its `ref_…` name and accumulate the metadata entries.  On
an injected copy failure the exception carries the files written so far
(no rollback, matching the Python comment). -/
def copyLoop (fault : Oracle) (src : List (String × String)) (sels : List Sel)
    (idx : Nat) (files : List (String × FileContent)) :
    Except (List (String × FileContent))
      (List (String × FileContent) × List ImageMeta) :=
  match sels with
  | [] => .ok (files, [])
  | sel :: rest =>
    if fault.copyFails idx then .error files
    else
      let color := colorD sel
      let ext := strLower (fileSuffix sel.original_file)
      let new_filename := refName idx color ext
      let content := FileContent.bytes ((assocGet src sel.original_file).getD "")
      let files1 := assocSet files new_filename content
      match copyLoop fault src rest (idx + 1) files1 with
      | .ok (files2, metas) =>
        .ok (files2, ⟨sel.original_file, new_filename, color⟩ :: metas)
      | .error f => .error f

/-- The metadata list a fault-free run of the copy loop produces for the
given selections, starting at the given 1-based index. -/
def metasOf (sels : List Sel) (idx : Nat) : List ImageMeta :=
  match sels with
  | [] => []
  | sel :: rest =>
    ⟨sel.original_file,
     refName idx (colorD sel) (strLower (fileSuffix sel.original_file)),
     colorD sel⟩ :: metasOf rest (idx + 1)

/-- Function `save_selection` (the whole body sits inside
`try: … except Exception: return False`): returns the success flag and the
new state of the product's output directory.  `src` is the listing of the
source product folder (name ↦ bytes), `now` the timestamp
`datetime.now().isoformat()`. -/
def save_selection (fault : Oracle) (product_name : String)
    (src : List (String × String)) (selected_images : List Sel)
    (username : String) (now : String) (fs : FS) : Bool × FS :=
  if fault.mkdirFails then (false, fs)
  else
    let fs1 : FS := { fs with dirExists := true }
    let missing_files := selected_images.filter
      (fun img => (assocGet src img.original_file).isNone)
    if missing_files ≠ [] then (false, fs1)
    else
      match copyLoop fault src selected_images 1 fs1.files with
      | .error f => (false, { fs1 with files := f })
      | .ok (files2, images_metadata) =>
        let selection_data : SelectionRecord :=
          ⟨product_name, true, username, now, images_metadata⟩
        if fault.writeFails then (false, { fs1 with files := files2 })
        else
          let files3 :=
            assocSet files2 ".selection.json.tmp" (.record selection_data)
          if fault.renameFails then (false, { fs1 with files := files3 })
          else
            let files4 := assocSet (removeFile files3 ".selection.json.tmp")
              "selection.json" (.record selection_data)
            (true, { fs1 with files := files4 })

/-- Function `is_product_completed`: `selection.json` exists in the
product's output directory. -/
def is_product_completed (fs : FS) : Bool :=
  (assocGet fs.files "selection.json").isSome

/-- The confirmed delete action in `main`:
`shutil.rmtree(product_output_folder)` removes the product's output
directory with everything in it. -/
def delete_product (_fs : FS) : FS := ⟨false, []⟩

/-- An empty, not-yet-created product output directory. -/
def fsEmpty : FS := ⟨false, []⟩

/-- A fault oracle whose only failure is the final atomic rename. -/
def renameFault : Oracle := ⟨false, fun _ => false, false, true⟩

/-- A sample product folder used to instantiate universally quantified
theorems on concrete data. -/
def sampleFolder : Folder :=
  ⟨true, [⟨"A.PNG", false, true⟩, ⟨"notes.txt", false, true⟩, ⟨"sub", true, false⟩]⟩

/-- A fresh session positioned at the first product. -/
def sampleSession : Session := ⟨0, "", [], none⟩

/-- A reviewer clicking `b.png` first and `a.png` second, tagging both. -/
def clickOps : List GridOp := [⟨"b.png", true, "red"⟩, ⟨"a.png", true, "blue"⟩]

/-! ## Helper lemmas: the lexicographic key order -/

theorem lexLe_total : ∀ x y, lexLe x y = true ∨ lexLe y x = true := by
  intro x
  induction x with
  | nil => intro y; left; rfl
  | cons a as ih =>
    intro y
    cases y with
    | nil => right; rfl
    | cons b bs =>
      simp only [lexLe]
      rcases Nat.lt_trichotomy a.toNat b.toNat with h | h | h
      · left; simp [h]
      · rcases ih bs with h2 | h2 <;> [left; right] <;> simp [h, h2]
      · right; simp [h, Nat.lt_asymm h]

theorem lexLe_trans : ∀ x y z, lexLe x y = true → lexLe y z = true → lexLe x z = true := by
  intro x
  induction x with
  | nil => intro y z _ _; rfl
  | cons a as ih =>
    intro y z hxy hyz
    cases y with
    | nil => simp [lexLe] at hxy
    | cons b bs =>
      cases z with
      | nil => simp [lexLe] at hyz
      | cons c cs =>
        simp only [lexLe] at hxy hyz ⊢
        split_ifs at hxy hyz ⊢ with h1 h2 h3 h4 h5 h6 <;>
          first
          | rfl
          | omega
          | (exact ih bs cs hxy hyz)

instance : IsTotal Entry byLowerName := ⟨fun _ _ => lexLe_total _ _⟩

instance : IsTrans Entry byLowerName := ⟨fun _ _ _ h1 h2 => lexLe_trans _ _ _ h1 h2⟩

/-! ## Helper lemmas: association lists -/

theorem assocGet_assocSet_self {β : Type} (l : List (String × β)) (k : String) (v : β) :
    assocGet (assocSet l k v) k = some v := by
  induction l with
  | nil => simp [assocGet, assocSet]
  | cons p rest ih =>
    obtain ⟨n, w⟩ := p
    by_cases h : n = k
    · simp [assocGet, assocSet, h]
    · simp [assocGet, assocSet, h, ih]

theorem assocGet_assocSet_ne {β : Type} (l : List (String × β)) (k n : String) (v : β)
    (h : k ≠ n) : assocGet (assocSet l k v) n = assocGet l n := by
  induction l with
  | nil => simp [assocGet, assocSet, h]
  | cons p rest ih =>
    obtain ⟨m, w⟩ := p
    by_cases h2 : m = k
    · subst h2; simp [assocGet, assocSet, h]
    · simp only [assocSet, if_neg h2, assocGet]
      by_cases h3 : m = n <;> simp [h3, ih]

theorem isSome_assocGet_assocSet {β : Type} (l : List (String × β)) (k n : String) (v : β)
    (h : (assocGet l n).isSome) : (assocGet (assocSet l k v) n).isSome := by
  by_cases hk : k = n
  · subst hk; simp [assocGet_assocSet_self]
  · rw [assocGet_assocSet_ne l k n v hk]; exact h

theorem assocGet_removeFile_ne (l : List (String × FileContent)) (k n : String)
    (h : k ≠ n) : assocGet (removeFile l k) n = assocGet l n := by
  induction l with
  | nil => simp [removeFile]
  | cons p rest ih =>
    obtain ⟨m, w⟩ := p
    by_cases h2 : m = k
    · subst h2; simp [removeFile, assocGet, h, ih]
    · simp only [removeFile, if_neg h2, assocGet]
      by_cases h3 : m = n <;> simp [h3, ih]

theorem assocGet_isSome_iff_mem {β : Type} (l : List (String × β)) (k : String) :
    (assocGet l k).isSome ↔ k ∈ l.map Prod.fst := by
  induction l with
  | nil => simp [assocGet]
  | cons p rest ih =>
    obtain ⟨n, w⟩ := p
    by_cases h : n = k
    · subst h; simp [assocGet]
    · simp [assocGet, h, ih, Ne.symm h]

theorem map_fst_assocSet_mem {β : Type} (l : List (String × β)) (k : String) (v : β)
    (h : k ∈ l.map Prod.fst) : (assocSet l k v).map Prod.fst = l.map Prod.fst := by
  induction l with
  | nil => simp at h
  | cons p rest ih =>
    obtain ⟨n, w⟩ := p
    by_cases h2 : n = k
    · simp [assocSet, h2]
    · simp only [List.map_cons, List.mem_cons] at h
      rcases h with h | h
      · exact absurd h.symm h2
      · simp [assocSet, h2, ih h]

/-! ## Helper lemmas: generated file names are distinct from the metadata names -/

theorem refName_ne_selection (i : Nat) (c e : String) : refName i c e ≠ "selection.json" := by
  intro h
  have h2 := congrArg String.data h
  simp only [refName, String.data_append] at h2
  have h3 : ('r' :: 'e' :: 'f' :: '_' :: ((toString i).data ++ "_".data ++ c.data ++ e.data)) =
      's' :: "election.json".data := by simpa using h2
  have h4 := (List.cons.injEq _ _ _ _).mp h3 |>.1
  simp at h4

theorem refName_ne_tmp (i : Nat) (c e : String) : refName i c e ≠ ".selection.json.tmp" := by
  intro h
  have h2 := congrArg String.data h
  simp only [refName, String.data_append] at h2
  have h3 : ('r' :: 'e' :: 'f' :: '_' :: ((toString i).data ++ "_".data ++ c.data ++ e.data)) =
      '.' :: "selection.json.tmp".data := by simpa using h2
  have h4 := (List.cons.injEq _ _ _ _).mp h3 |>.1
  simp at h4

theorem tmp_ne_selection : (".selection.json.tmp" : String) ≠ "selection.json" := by decide

/-! ## Helper lemmas: the copy loop -/

theorem copyLoop_ok_spec (fault : Oracle) (src : List (String × String)) :
    ∀ (sels : List Sel) (idx : Nat) (files files2 : List (String × FileContent))
      (metas : List ImageMeta),
      copyLoop fault src sels idx files = .ok (files2, metas) →
      metas = metasOf sels idx ∧
      (∀ n, (∀ j c e, refName j c e ≠ n) → assocGet files2 n = assocGet files n) ∧
      (∀ n, (assocGet files n).isSome → (assocGet files2 n).isSome) ∧
      (∀ m ∈ metasOf sels idx, (assocGet files2 m.saved_file).isSome) := by
  intro sels
  induction sels with
  | nil =>
    intro idx files files2 metas h
    simp only [copyLoop] at h
    cases h
    exact ⟨rfl, fun n _ => rfl, fun n hn => hn, by simp [metasOf]⟩
  | cons sel rest ih =>
    intro idx files files2 metas h
    by_cases hf : fault.copyFails idx = true
    · simp [copyLoop, hf] at h
    · simp only [copyLoop, hf, if_false, Bool.false_eq_true] at h
      cases hcl : copyLoop fault src rest (idx + 1)
          (assocSet files
            (refName idx (colorD sel) (strLower (fileSuffix sel.original_file)))
            (FileContent.bytes ((assocGet src sel.original_file).getD ""))) with
      | error f =>
        simp only [hcl] at h
        exact Except.noConfusion h
      | ok p =>
        obtain ⟨f2, metas2⟩ := p
        simp only [hcl] at h
        cases h
        obtain ⟨hm, hpres, hmono, hsaved⟩ := ih (idx + 1) _ _ _ hcl
        refine ⟨?_, ?_, ?_, ?_⟩
        · simp [metasOf, hm]
        · intro n hn
          rw [hpres n hn, assocGet_assocSet_ne _ _ _ _ (hn idx _ _)]
        · intro n hsome
          exact hmono n (isSome_assocGet_assocSet _ _ _ _ hsome)
        · intro m hmem
          simp only [metasOf, List.mem_cons] at hmem
          rcases hmem with hmem | hmem
          · subst hmem
            apply hmono
            simp [assocGet_assocSet_self]
          · exact hsaved m hmem

theorem copyLoop_error_spec (fault : Oracle) (src : List (String × String)) :
    ∀ (sels : List Sel) (idx : Nat) (files f : List (String × FileContent)),
      copyLoop fault src sels idx files = .error f →
      ∀ n, (∀ j c e, refName j c e ≠ n) → assocGet f n = assocGet files n := by
  intro sels
  induction sels with
  | nil =>
    intro idx files f h
    simp only [copyLoop] at h
    exact Except.noConfusion h
  | cons sel rest ih =>
    intro idx files f h n hn
    by_cases hf : fault.copyFails idx = true
    · simp only [copyLoop, hf, if_true] at h
      cases h
      rfl
    · simp only [copyLoop, hf, if_false, Bool.false_eq_true] at h
      cases hcl : copyLoop fault src rest (idx + 1)
          (assocSet files
            (refName idx (colorD sel) (strLower (fileSuffix sel.original_file)))
            (FileContent.bytes ((assocGet src sel.original_file).getD ""))) with
      | ok p =>
        simp only [hcl] at h
        exact Except.noConfusion h
      | error f2 =>
        simp only [hcl] at h
        cases h
        rw [ih (idx + 1) _ _ hcl n hn, assocGet_assocSet_ne _ _ _ _ (hn idx _ _)]

/-! ## Helper lemmas: `save_selection` case analysis -/

theorem save_spec (fault : Oracle) (product : String) (src : List (String × String))
    (sels : List Sel) (user now : String) (fs : FS) :
    ((save_selection fault product src sels user now fs).1 = true ∧
      ∃ files2,
        copyLoop fault src sels 1 fs.files = .ok (files2, metasOf sels 1) ∧
        (save_selection fault product src sels user now fs).2.files =
          assocSet
            (removeFile
              (assocSet files2 ".selection.json.tmp"
                (.record ⟨product, true, user, now, metasOf sels 1⟩))
              ".selection.json.tmp")
            "selection.json" (.record ⟨product, true, user, now, metasOf sels 1⟩)) ∨
    ((save_selection fault product src sels user now fs).1 = false ∧
      assocGet (save_selection fault product src sels user now fs).2.files "selection.json" =
        assocGet fs.files "selection.json") := by
  by_cases hm : fault.mkdirFails = true
  · right
    have hs : save_selection fault product src sels user now fs = (false, fs) := by
      simp [save_selection, hm]
    rw [hs]
    exact ⟨rfl, rfl⟩
  · by_cases hmiss : sels.filter (fun img => (assocGet src img.original_file).isNone) = []
    · cases hcl : copyLoop fault src sels 1 fs.files with
      | error f =>
        right
        have hs : save_selection fault product src sels user now fs =
            (false, ⟨true, f⟩) := by
          simp [save_selection, hm, hmiss, hcl]
        rw [hs]
        exact ⟨rfl, copyLoop_error_spec fault src sels 1 fs.files f hcl _ refName_ne_selection⟩
      | ok p =>
        obtain ⟨files2, metas⟩ := p
        obtain ⟨hmEq, hpres, hmono, hsaved⟩ := copyLoop_ok_spec fault src sels 1 _ _ _ hcl
        subst hmEq
        by_cases hw : fault.writeFails = true
        · right
          have hs : save_selection fault product src sels user now fs =
              (false, ⟨true, files2⟩) := by
            simp [save_selection, hm, hmiss, hcl, hw]
          rw [hs]
          exact ⟨rfl, hpres _ refName_ne_selection⟩
        · by_cases hr : fault.renameFails = true
          · right
            have hs : save_selection fault product src sels user now fs =
                (false, ⟨true, assocSet files2 ".selection.json.tmp"
                  (.record ⟨product, true, user, now, metasOf sels 1⟩)⟩) := by
              simp [save_selection, hm, hmiss, hcl, hw, hr]
            rw [hs]
            refine ⟨rfl, ?_⟩
            rw [assocGet_assocSet_ne _ _ _ _ tmp_ne_selection]
            exact hpres _ refName_ne_selection
          · left
            have hs : save_selection fault product src sels user now fs =
                (true, ⟨true, assocSet
                  (removeFile (assocSet files2 ".selection.json.tmp"
                    (.record ⟨product, true, user, now, metasOf sels 1⟩))
                    ".selection.json.tmp")
                  "selection.json" (.record ⟨product, true, user, now, metasOf sels 1⟩)⟩) := by
              simp [save_selection, hm, hmiss, hcl, hw, hr]
            rw [hs]
            exact ⟨rfl, files2, rfl, rfl⟩
    · right
      have hs : save_selection fault product src sels user now fs =
          (false, ⟨true, fs.files⟩) := by
        simp [save_selection, hm, hmiss]
      rw [hs]
      exact ⟨rfl, rfl⟩

/-! ## Helper lemmas: metadata list shape -/

theorem metasOf_getElem : ∀ (sels : List Sel) (idx i : Nat) (sel : Sel),
    sels[i]? = some sel →
    (metasOf sels idx)[i]? = some ⟨sel.original_file,
      refName (idx + i) (colorD sel) (strLower (fileSuffix sel.original_file)),
      colorD sel⟩ := by
  intro sels
  induction sels with
  | nil => intro idx i sel h; simp at h
  | cons s rest ih =>
    intro idx i sel h
    cases i with
    | zero =>
      simp only [List.getElem?_cons_zero, Option.some.injEq] at h
      subst h
      simp [metasOf]
    | succ n =>
      simp only [List.getElem?_cons_succ] at h
      simp only [metasOf, List.getElem?_cons_succ]
      have h2 := ih (idx + 1) n sel h
      rw [show idx + 1 + n = idx + (n + 1) from by omega] at h2
      exact h2

theorem metasOf_saved_shape : ∀ (sels : List Sel) (idx : Nat) (m : ImageMeta),
    m ∈ metasOf sels idx → ∃ j c e, m.saved_file = refName j c e := by
  intro sels
  induction sels with
  | nil => intro idx m h; simp [metasOf] at h
  | cons s rest ih =>
    intro idx m h
    simp only [metasOf, List.mem_cons] at h
    rcases h with h | h
    · exact ⟨idx, colorD s, strLower (fileSuffix s.original_file), by rw [h]⟩
    · exact ih (idx + 1) m h

/-! ## Helper lemmas: the selection dict -/

theorem map_fst_grid_step (name : String) (isSel : Bool) (c : String)
    (l : List (String × SelEntry)) (h : name ∈ l.map Prod.fst) :
    (grid_step name isSel c l).map Prod.fst = l.map Prod.fst := by
  unfold grid_step
  have hsome : (assocGet l name).isSome = true := (assocGet_isSome_iff_mem l name).mpr h
  cases hget : assocGet l name with
  | none => rw [hget] at hsome; simp at hsome
  | some e =>
    simp only [hget]
    cases isSel <;> simp [map_fst_assocSet_mem _ _ _ h]

theorem map_fst_apply_grid : ∀ (ops : List GridOp) (l : List (String × SelEntry)),
    (∀ op ∈ ops, op.image ∈ l.map Prod.fst) →
    (apply_grid ops l).map Prod.fst = l.map Prod.fst := by
  intro ops
  induction ops with
  | nil => intro l _; rfl
  | cons op rest ih =>
    intro l hops
    have h1 : op.image ∈ l.map Prod.fst := hops op (by simp)
    have hstep := map_fst_grid_step op.image op.isSel op.color l h1
    have h2 : ∀ o ∈ rest, o.image ∈ (grid_step op.image op.isSel op.color l).map Prod.fst := by
      intro o ho
      rw [hstep]
      exact hops o (by simp [ho])
    have h3 := ih (grid_step op.image op.isSel op.color l) h2
    simp only [apply_grid, List.foldl_cons] at h3 ⊢
    exact h3.trans hstep

theorem collect_selected_map (l : List (String × SelEntry))
    (hnd : (l.map Prod.fst).Nodup) :
    (collect_selected l).map Sel.original_file =
      (l.map Prod.fst).filter
        (fun n => ((assocGet l n).getD ⟨false, "unknown"⟩).selected) := by
  induction l with
  | nil => rfl
  | cons p rest ih =>
    obtain ⟨k, e⟩ := p
    simp only [List.map_cons, List.nodup_cons] at hnd
    obtain ⟨hk, hnd2⟩ := hnd
    have hih := ih hnd2
    have hcong : (rest.map Prod.fst).filter
        (fun n => ((assocGet ((k, e) :: rest) n).getD ⟨false, "unknown"⟩).selected) =
        (rest.map Prod.fst).filter
        (fun n => ((assocGet rest n).getD ⟨false, "unknown"⟩).selected) := by
      apply List.filter_congr
      intro n hn
      have hne : k ≠ n := fun hEq => hk (hEq ▸ hn)
      simp [assocGet, hne]
    simp only [collect_selected, List.filterMap_cons] at hih ⊢
    simp only [List.map_cons, List.filter_cons]
    have hpredk : ((assocGet ((k, e) :: rest) k).getD (⟨false, "unknown"⟩ : SelEntry)).selected
        = e.selected := by
      simp [assocGet]
    cases he : e.selected
    · simp only [he] at hpredk
      simp only [he, if_false, hpredk, Bool.false_eq_true, cond_false]
      rw [hcong]
      exact hih
    · simp only [he] at hpredk
      simp only [he, if_true, hpredk, cond_true, List.map_cons]
      rw [hcong]
      simp [hih]

theorem grid_step_get (l : List (String × SelEntry)) (name : String) (isSel : Bool)
    (c : String) (e : SelEntry) (h : assocGet l name = some e) :
    assocGet (grid_step name isSel c l) name =
      some ⟨isSel, if isSel then c else e.color⟩ := by
  unfold grid_step
  simp only [h]
  cases isSel
  · simp [assocGet_assocSet_self]
  · simp [assocGet_assocSet_self]

/-! ## Claim theorems -/

/-- Claim C4: `get_all_product_folders` returns the directories directly
under the source root sorted case-insensitively (by lowercased name, code
points compared lexicographically), `get_images_in_folder` returns the
folder's image files sorted the same way, and — being pure functions of
their input — both return the identical sequence on every repeated
invocation over the same inputs. -/
theorem listings_sorted_case_insensitive_and_deterministic
    (src : SourceRoot) (folder : Folder) :
    List.Sorted byLowerName (get_all_product_folders src) ∧
    (get_all_product_folders src).Perm
      (if src.present then src.entries.filter (fun f => f.isDir) else []) ∧
    get_all_product_folders src = get_all_product_folders src ∧
    List.Sorted byLowerName (get_images_in_folder folder) ∧
    (get_images_in_folder folder).Perm
      (if folder.present then
        folder.entries.filter
          (fun item => item.isFile &&
            decide (strLower (fileSuffix item.name) ∈ SUPPORTED_EXTENSIONS))
       else []) ∧
    get_images_in_folder folder = get_images_in_folder folder := by
  refine ⟨?_, ?_, rfl, ?_, ?_, rfl⟩
  · unfold get_all_product_folders
    by_cases h : src.present = true
    · simp only [h, if_true]
      exact List.sorted_insertionSort _ _
    · simp [h]
  · unfold get_all_product_folders
    by_cases h : src.present = true
    · simp only [h, if_true]
      exact List.perm_insertionSort _ _
    · simp [h]
  · unfold get_images_in_folder
    by_cases h : folder.present = true
    · simp only [h, if_true]
      exact List.sorted_insertionSort _ _
    · simp [h]
  · unfold get_images_in_folder
    by_cases h : folder.present = true
    · simp only [h, if_true]
      exact List.perm_insertionSort _ _
    · simp [h]

/-- Claim C9: every entry returned by `get_images_in_folder` is a file (so
subdirectories are excluded) and its lowercased extension belongs to the
fixed supported set. -/
theorem listImages_only_supported_files (folder : Folder) (e : Entry)
    (h : e ∈ get_images_in_folder folder) :
    e.isFile = true ∧ strLower (fileSuffix e.name) ∈ SUPPORTED_EXTENSIONS := by
  unfold get_images_in_folder at h
  by_cases hp : folder.present = true
  · simp only [hp, if_true] at h
    have h2 := (List.perm_insertionSort byLowerName _).mem_iff.mp h
    have h3 := List.mem_filter.mp h2
    have h4 := h3.2
    rw [Bool.and_eq_true] at h4
    exact ⟨h4.1, of_decide_eq_true h4.2⟩
  · simp [hp] at h

/-- Witness for C9 at a concrete folder listing. -/
theorem listImages_only_supported_files_witness :
    (⟨"A.PNG", false, true⟩ : Entry).isFile = true ∧
    strLower (fileSuffix (⟨"A.PNG", false, true⟩ : Entry).name) ∈ SUPPORTED_EXTENSIONS :=
  listImages_only_supported_files sampleFolder ⟨"A.PNG", false, true⟩ (by decide)

/-- Claim C7: over a non-empty product list the current index stays inside
`[0, count-1]`: `go_to_previous` computes `max 0 (index-1)`, `go_to_next`
computes `min (count-1) (index+1)`, and the jump control clamps any target
into range instead of erroring or wrapping. -/
theorem navigation_index_clamped (n : Nat) (s : Session) (target : Int)
    (hn : 1 ≤ n) (h0 : 0 ≤ s.current_index) (h1 : s.current_index ≤ (n : Int) - 1) :
    (go_to_previous s).current_index = max 0 (s.current_index - 1) ∧
    (go_to_next n s).current_index = min ((n : Int) - 1) (s.current_index + 1) ∧
    0 ≤ (go_to_previous s).current_index ∧
    (go_to_previous s).current_index ≤ (n : Int) - 1 ∧
    0 ≤ (go_to_next n s).current_index ∧
    (go_to_next n s).current_index ≤ (n : Int) - 1 ∧
    0 ≤ (jump_to n target s).current_index ∧
    (jump_to n target s).current_index ≤ (n : Int) - 1 := by
  have hn2 : (1 : Int) ≤ (n : Int) := by exact_mod_cast hn
  unfold go_to_previous go_to_next jump_to
  dsimp only
  refine ⟨rfl, rfl, ?_, ?_, ?_, ?_, ?_, ?_⟩ <;>
    simp only [max_def, min_def] <;>
    split_ifs <;>
    first
    | omega
    | (dsimp only; omega)

/-- Witness for C7: three products, index 0, jump target 5 clamps to 2. -/
theorem navigation_index_clamped_witness :
    ((go_to_previous sampleSession).current_index =
        max 0 (sampleSession.current_index - 1) ∧
      (go_to_next 3 sampleSession).current_index =
        min ((3 : Int) - 1) (sampleSession.current_index + 1) ∧
      0 ≤ (go_to_previous sampleSession).current_index ∧
      (go_to_previous sampleSession).current_index ≤ (3 : Int) - 1 ∧
      0 ≤ (go_to_next 3 sampleSession).current_index ∧
      (go_to_next 3 sampleSession).current_index ≤ (3 : Int) - 1 ∧
      0 ≤ (jump_to 3 5 sampleSession).current_index ∧
      (jump_to 3 5 sampleSession).current_index ≤ (3 : Int) - 1) ∧
    (jump_to 3 5 sampleSession).current_index = 2 :=
  ⟨navigation_index_clamped 3 sampleSession 5 (by decide) (by decide) (by decide),
   by decide⟩

/-- Claim C6 counterexample: with the checkbox unselected, the chosen color
is NOT stored into the image's selection entry (the store happens only
under `if is_selected:`), refuting "stored regardless of the selected
flag". -/
theorem setColor_unselected_not_stored_cex :
    ((assocGet (grid_step "img.png" false "red" [("img.png", ⟨false, "unknown"⟩)])
        "img.png").getD ⟨false, "unknown"⟩).color = "unknown" ∧
    ("unknown" : String) ≠ "red" := by decide

/-- Claim C6 (amended): the grid stores the chosen color into the image's
selection entry only when the image's checkbox is selected; when it is
unselected the previously stored color is kept (the UI disables the
widget). -/
theorem setColor_stored_only_when_selected (l : List (String × SelEntry))
    (name : String) (c : String) (e : SelEntry) (h : assocGet l name = some e) :
    assocGet (grid_step name true c l) name = some ⟨true, c⟩ ∧
    assocGet (grid_step name false c l) name = some ⟨false, e.color⟩ :=
  ⟨grid_step_get l name true c e h, grid_step_get l name false c e h⟩

/-- Witness for the amended C6 at a concrete selection dict. -/
theorem setColor_stored_only_when_selected_witness :
    assocGet (grid_step "img.png" true "red" [("img.png", ⟨false, "unknown"⟩)]) "img.png"
      = some ⟨true, "red"⟩ ∧
    assocGet (grid_step "img.png" false "red" [("img.png", ⟨false, "unknown"⟩)]) "img.png"
      = some ⟨false, "unknown"⟩ :=
  setColor_stored_only_when_selected [("img.png", ⟨false, "unknown"⟩)] "img.png" "red"
    ⟨false, "unknown"⟩ (by decide)

/-- Claim C1: the metadata file is published atomically through the
write-temporary-then-rename sequence — after a save that returns success
the metadata file holds the record for the full new selection list, and
after a save that fails the metadata file is unchanged from before the
call. -/
theorem save_publishes_metadata_atomically (fault : Oracle) (product : String)
    (src : List (String × String)) (sels : List Sel) (user now : String) (fs : FS) :
    ((save_selection fault product src sels user now fs).1 = true →
      assocGet (save_selection fault product src sels user now fs).2.files "selection.json" =
        some (.record ⟨product, true, user, now, metasOf sels 1⟩)) ∧
    ((save_selection fault product src sels user now fs).1 = false →
      assocGet (save_selection fault product src sels user now fs).2.files "selection.json" =
        assocGet fs.files "selection.json") := by
  rcases save_spec fault product src sels user now fs with ⟨ht, files2, hcl, hfiles⟩ | ⟨hf, hget⟩
  · refine ⟨fun _ => ?_, fun hfalse => ?_⟩
    · rw [hfiles, assocGet_assocSet_self]
    · rw [ht] at hfalse
      exact absurd hfalse (by simp)
  · refine ⟨fun htrue => ?_, fun _ => hget⟩
    rw [hf] at htrue
    exact absurd htrue (by simp)

/-- Witness for C1: a fault-free save publishes the record; a save whose
final rename raises leaves the metadata file untouched. -/
theorem save_publishes_metadata_atomically_witness :
    assocGet (save_selection noFault "p" [("a.png", "B")] [⟨"a.png", some "red"⟩]
        "alice" "t0" fsEmpty).2.files "selection.json" =
      some (.record ⟨"p", true, "alice", "t0", metasOf [⟨"a.png", some "red"⟩] 1⟩) ∧
    assocGet (save_selection renameFault "p" [("a.png", "B")] [⟨"a.png", some "red"⟩]
        "alice" "t0" fsEmpty).2.files "selection.json" =
      assocGet fsEmpty.files "selection.json" :=
  ⟨(save_publishes_metadata_atomically noFault "p" [("a.png", "B")] [⟨"a.png", some "red"⟩]
      "alice" "t0" fsEmpty).1 (by decide),
   (save_publishes_metadata_atomically renameFault "p" [("a.png", "B")] [⟨"a.png", some "red"⟩]
      "alice" "t0" fsEmpty).2 (by decide)⟩

/-- Claim C2 counterexample: with a missing source file the save fails, yet
the product's output directory has been created (`mkdir` runs before the
validation), so "performs no filesystem writes at all" is false. -/
theorem save_missing_source_still_mkdirs_cex :
    (save_selection noFault "p" [] [⟨"x.png", none⟩] "alice" "t0" fsEmpty).1 = false ∧
    (save_selection noFault "p" [] [⟨"x.png", none⟩] "alice" "t0" fsEmpty).2.dirExists = true ∧
    fsEmpty.dirExists = false := by decide

/-- Claim C2 (amended): when a referenced source file is missing (and the
directory creation itself does not raise), the save fails with the
missing-source error path and performs no file writes — no copies and no
metadata write; the product's output directory is created, however,
because `mkdir` precedes the validation. -/
theorem save_missing_source_fails_without_file_writes (fault : Oracle) (product : String)
    (src : List (String × String)) (sels : List Sel) (user now : String) (fs : FS)
    (hm : fault.mkdirFails = false)
    (hmiss : ∃ img ∈ sels, assocGet src img.original_file = none) :
    save_selection fault product src sels user now fs = (false, ⟨true, fs.files⟩) := by
  have hne : sels.filter (fun img => (assocGet src img.original_file).isNone) ≠ [] := by
    obtain ⟨img, hmem, hnone⟩ := hmiss
    intro hempty
    have h2 := List.filter_eq_nil_iff.mp hempty img hmem
    simp [hnone] at h2
  simp [save_selection, hm, hne]

/-- Witness for the amended C2 at a concrete state. -/
theorem save_missing_source_fails_without_file_writes_witness :
    save_selection noFault "p" [] [⟨"x.png", none⟩] "alice" "t0" fsEmpty =
      (false, ⟨true, fsEmpty.files⟩) :=
  save_missing_source_fails_without_file_writes noFault "p" [] [⟨"x.png", none⟩]
    "alice" "t0" fsEmpty rfl ⟨⟨"x.png", none⟩, by decide, rfl⟩

/-- Claim C3 counterexample: for a source file `photo.JPG` the claimed name
`ref_1_red` + original extension (`.JPG`) is not present in the output
directory after a successful save; the file actually written is
`ref_1_red.jpg`, with the extension lowercased. -/
theorem saved_name_uses_lowercased_extension_cex :
    (save_selection noFault "p" [("photo.JPG", "B")] [⟨"photo.JPG", some "red"⟩]
      "alice" "t0" fsEmpty).1 = true ∧
    fileSuffix "photo.JPG" = ".JPG" ∧
    assocGet (save_selection noFault "p" [("photo.JPG", "B")] [⟨"photo.JPG", some "red"⟩]
        "alice" "t0" fsEmpty).2.files
      ("ref_" ++ toString 1 ++ "_" ++ "red" ++ fileSuffix "photo.JPG") = none ∧
    assocGet (save_selection noFault "p" [("photo.JPG", "B")] [⟨"photo.JPG", some "red"⟩]
        "alice" "t0" fsEmpty).2.files "ref_1_red.jpg" = some (.bytes "B") := by decide

/-- Claim C3 (amended): on a successful save the `i`-th selection (1-based)
is recorded and copied as `ref_<i>_<color><ext>` where `<ext>` is the
LOWERCASED extension of the original file, and the color falls back to
`"unknown"` when it is empty or absent. -/
theorem saved_names_indexed_with_lowercased_extension (fault : Oracle) (product : String)
    (src : List (String × String)) (sels : List Sel) (user now : String) (fs : FS)
    (i : Nat) (sel : Sel)
    (hok : (save_selection fault product src sels user now fs).1 = true)
    (hi : sels[i]? = some sel) :
    (metasOf sels 1)[i]? = some ⟨sel.original_file,
      refName (i + 1) (colorD sel) (strLower (fileSuffix sel.original_file)),
      colorD sel⟩ ∧
    assocGet (save_selection fault product src sels user now fs).2.files "selection.json" =
      some (.record ⟨product, true, user, now, metasOf sels 1⟩) ∧
    (assocGet (save_selection fault product src sels user now fs).2.files
      (refName (i + 1) (colorD sel) (strLower (fileSuffix sel.original_file)))).isSome = true ∧
    (∀ f, colorD ⟨f, none⟩ = "unknown") ∧
    (∀ f, colorD ⟨f, some ""⟩ = "unknown") := by
  rcases save_spec fault product src sels user now fs with ⟨ht, files2, hcl, hfiles⟩ | ⟨hf, hget⟩
  case inr =>
    rw [hf] at hok
    exact absurd hok (by simp)
  have hidx := metasOf_getElem sels 1 i sel hi
  rw [show 1 + i = i + 1 from by omega] at hidx
  obtain ⟨hmEq, hpres, hmono, hsaved⟩ := copyLoop_ok_spec fault src sels 1 _ _ _ hcl
  have hmem : (⟨sel.original_file,
      refName (i + 1) (colorD sel) (strLower (fileSuffix sel.original_file)),
      colorD sel⟩ : ImageMeta) ∈ metasOf sels 1 := by
    have := List.getElem?_eq_some.mp hidx
    obtain ⟨hlt, hEq⟩ := this
    rw [← hEq]
    exact List.getElem_mem hlt
  have h1 : (assocGet files2
      (refName (i + 1) (colorD sel) (strLower (fileSuffix sel.original_file)))).isSome = true :=
    hsaved _ hmem
  refine ⟨hidx, ?_, ?_, fun f => rfl, fun f => rfl⟩
  · rw [hfiles, assocGet_assocSet_self]
  · rw [hfiles]
    apply isSome_assocGet_assocSet
    rw [assocGet_removeFile_ne _ _ _ (Ne.symm (refName_ne_tmp (i + 1) _ _))]
    exact isSome_assocGet_assocSet _ _ _ _ h1

/-- Witness for the amended C3 at a concrete save. -/
theorem saved_names_indexed_with_lowercased_extension_witness :
    (metasOf [⟨"photo.JPG", some "red"⟩] 1)[0]? = some ⟨"photo.JPG",
      refName (0 + 1) (colorD ⟨"photo.JPG", some "red"⟩)
        (strLower (fileSuffix "photo.JPG")), colorD ⟨"photo.JPG", some "red"⟩⟩ ∧
    assocGet (save_selection noFault "p" [("photo.JPG", "B")] [⟨"photo.JPG", some "red"⟩]
        "alice" "t0" fsEmpty).2.files "selection.json" =
      some (.record ⟨"p", true, "alice", "t0", metasOf [⟨"photo.JPG", some "red"⟩] 1⟩) ∧
    (assocGet (save_selection noFault "p" [("photo.JPG", "B")] [⟨"photo.JPG", some "red"⟩]
        "alice" "t0" fsEmpty).2.files
      (refName (0 + 1) (colorD ⟨"photo.JPG", some "red"⟩)
        (strLower (fileSuffix "photo.JPG")))).isSome = true ∧
    (∀ f, colorD ⟨f, none⟩ = "unknown") ∧
    (∀ f, colorD ⟨f, some ""⟩ = "unknown") :=
  saved_names_indexed_with_lowercased_extension noFault "p" [("photo.JPG", "B")]
    [⟨"photo.JPG", some "red"⟩] "alice" "t0" fsEmpty 0 ⟨"photo.JPG", some "red"⟩
    (by decide) rfl

/-- Claim C5: when the active selections were initialized by
`reset_selections_for_product` from the sorted image listing, the
collection loop returns the selected images in that listing order (the
dict's insertion order), whatever the order of the reviewer's
interactions — the collected list equals the listing filtered to the
finally selected images. -/
theorem collect_preserves_listing_order (images : List String) (ops : List GridOp)
    (product : String) (s : Session)
    (hnd : images.Nodup)
    (hops : ∀ op ∈ ops, op.image ∈ images)
    (hload : s.last_loaded_product ≠ some product) :
    (collect_selected (apply_grid ops
        (reset_selections_for_product product images s).current_selections)).map
      Sel.original_file =
      images.filter (fun n =>
        ((assocGet (apply_grid ops
          (reset_selections_for_product product images s).current_selections) n).getD
          ⟨false, "unknown"⟩).selected) := by
  have hreset : (reset_selections_for_product product images s).current_selections =
      images.map (fun img => (img, ⟨false, "unknown"⟩)) := by
    simp [reset_selections_for_product, hload]
  rw [hreset]
  have hkeys0 : (images.map (fun img => (img, (⟨false, "unknown"⟩ : SelEntry)))).map
      Prod.fst = images := by
    rw [List.map_map]
    have hfun : (Prod.fst ∘ fun img => (img, (⟨false, "unknown"⟩ : SelEntry))) =
        fun img : String => img := rfl
    rw [hfun, List.map_id']
  have hops2 : ∀ op ∈ ops, op.image ∈
      (images.map (fun img => (img, (⟨false, "unknown"⟩ : SelEntry)))).map Prod.fst := by
    intro op hop
    rw [hkeys0]
    exact hops op hop
  have hkeys := map_fst_apply_grid ops _ hops2
  have hnd2 : ((apply_grid ops
      (images.map (fun img => (img, (⟨false, "unknown"⟩ : SelEntry))))).map Prod.fst).Nodup := by
    rw [hkeys, hkeys0]
    exact hnd
  have hcoll := collect_selected_map _ hnd2
  rw [hcoll, hkeys, hkeys0]

/-- Witness for C5: reviewer clicks `b.png` before `a.png`; the collected
list still follows the listing order `a.png`, `b.png`. -/
theorem collect_preserves_listing_order_witness :
    ((collect_selected (apply_grid clickOps
        (reset_selections_for_product "p" ["a.png", "b.png"] sampleSession).current_selections)).map
      Sel.original_file =
      ["a.png", "b.png"].filter (fun n =>
        ((assocGet (apply_grid clickOps
          (reset_selections_for_product "p" ["a.png", "b.png"] sampleSession).current_selections)
          n).getD ⟨false, "unknown"⟩).selected)) ∧
    (collect_selected (apply_grid clickOps
        (reset_selections_for_product "p" ["a.png", "b.png"] sampleSession).current_selections)).map
      Sel.original_file = ["a.png", "b.png"] :=
  ⟨collect_preserves_listing_order ["a.png", "b.png"] clickOps "p" sampleSession
      (by decide) (by decide) (by decide),
   by decide⟩

/-- Claim C8: a successful save leaves `selection.json` present, so
`is_product_completed` returns true immediately afterwards; deleting the
product's output directory removes it, so `is_product_completed` returns
false immediately afterwards. -/
theorem save_completed_delete_not_completed :
    (∀ (fault : Oracle) (product : String) (src : List (String × String)) (sels : List Sel)
      (user now : String) (fs fs2 : FS),
      save_selection fault product src sels user now fs = (true, fs2) →
      is_product_completed fs2 = true) ∧
    (∀ fs : FS, is_product_completed (delete_product fs) = false) := by
  constructor
  · intro fault product src sels user now fs fs2 hsave
    rcases save_spec fault product src sels user now fs with ⟨ht, files2, hcl, hfiles⟩ | ⟨hf, hget⟩
    · have h2 : (save_selection fault product src sels user now fs).2 = fs2 := by rw [hsave]
      unfold is_product_completed
      rw [← h2, hfiles, assocGet_assocSet_self]
      rfl
    · rw [hsave] at hf
      exact absurd hf (by simp)
  · intro fs
    rfl

/-- Witness for C8 at a concrete successful save and a concrete delete. -/
theorem save_completed_delete_not_completed_witness :
    is_product_completed (save_selection noFault "p" [("a.png", "B")]
      [⟨"a.png", some "red"⟩] "alice" "t0" fsEmpty).2 = true ∧
    is_product_completed (delete_product fsEmpty) = false :=
  ⟨save_completed_delete_not_completed.1 noFault "p" [("a.png", "B")]
      [⟨"a.png", some "red"⟩] "alice" "t0" fsEmpty
      (save_selection noFault "p" [("a.png", "B")] [⟨"a.png", some "red"⟩]
        "alice" "t0" fsEmpty).2 (by decide),
   save_completed_delete_not_completed.2 fsEmpty⟩

/-- Claim C10: `save_selection` always returns a boolean — every injected
exception is caught inside the function and turned into a `false` result —
and it returns `true` only when the run completed in full: the metadata
file holds the record of the whole selection list and every copied
`ref_…` file is present. -/
theorem save_selection_total_and_complete_on_success (fault : Oracle) (product : String)
    (src : List (String × String)) (sels : List Sel) (user now : String) (fs : FS) :
    ((save_selection fault product src sels user now fs).1 = true ∨
      (save_selection fault product src sels user now fs).1 = false) ∧
    ((save_selection fault product src sels user now fs).1 = true →
      assocGet (save_selection fault product src sels user now fs).2.files "selection.json" =
        some (.record ⟨product, true, user, now, metasOf sels 1⟩) ∧
      ∀ m ∈ metasOf sels 1,
        (assocGet (save_selection fault product src sels user now fs).2.files
          m.saved_file).isSome = true) := by
  refine ⟨Bool.eq_false_or_eq_true _, fun htrue => ?_⟩
  rcases save_spec fault product src sels user now fs with ⟨ht, files2, hcl, hfiles⟩ | ⟨hf, hget⟩
  case inr =>
    rw [hf] at htrue
    exact absurd htrue (by simp)
  obtain ⟨hmEq, hpres, hmono, hsaved⟩ := copyLoop_ok_spec fault src sels 1 _ _ _ hcl
  refine ⟨by rw [hfiles, assocGet_assocSet_self], fun m hm => ?_⟩
  obtain ⟨j, c, e, hshape⟩ := metasOf_saved_shape sels 1 m hm
  rw [hfiles]
  apply isSome_assocGet_assocSet
  rw [hshape, assocGet_removeFile_ne _ _ _ (Ne.symm (refName_ne_tmp j c e))]
  rw [← hshape]
  exact isSome_assocGet_assocSet _ _ _ _ (hsaved m hm)

/-- Witness for C10 at a concrete fault-free save of two images. -/
theorem save_selection_total_and_complete_on_success_witness :
    ((save_selection noFault "p" [("a.png", "A"), ("b.png", "B")]
        [⟨"a.png", some "red"⟩, ⟨"b.png", none⟩] "alice" "t0" fsEmpty).1 = true ∨
      (save_selection noFault "p" [("a.png", "A"), ("b.png", "B")]
        [⟨"a.png", some "red"⟩, ⟨"b.png", none⟩] "alice" "t0" fsEmpty).1 = false) ∧
    assocGet (save_selection noFault "p" [("a.png", "A"), ("b.png", "B")]
        [⟨"a.png", some "red"⟩, ⟨"b.png", none⟩] "alice" "t0" fsEmpty).2.files
      "selection.json" =
      some (.record ⟨"p", true, "alice", "t0",
        metasOf [⟨"a.png", some "red"⟩, ⟨"b.png", none⟩] 1⟩) ∧
    ∀ m ∈ metasOf [⟨"a.png", some "red"⟩, ⟨"b.png", none⟩] 1,
      (assocGet (save_selection noFault "p" [("a.png", "A"), ("b.png", "B")]
          [⟨"a.png", some "red"⟩, ⟨"b.png", none⟩] "alice" "t0" fsEmpty).2.files
        m.saved_file).isSome = true := by
  have h := save_selection_total_and_complete_on_success noFault "p"
    [("a.png", "A"), ("b.png", "B")] [⟨"a.png", some "red"⟩, ⟨"b.png", none⟩]
    "alice" "t0" fsEmpty
  exact ⟨h.1, h.2 (by decide)⟩
